import Mathlib

/-!
Shallow embedding of the call-graph analysis service
(`codie/repo_analysis/app/main.py`): the tree-sitter node model, the
two-pass `build_call_graph` algorithm, the complexity adapter wrapper and
the `/api/v1/parse` endpoint, together with proofs of the specified
properties.
-/

set_option autoImplicit false

namespace RepoAnalysis

/-- A tree-sitter syntax node: a type tag (such as `module`,
`function_definition`, `call`, `identifier`), a byte range into the source
buffer, and the ordered list of child nodes. -/
inductive Node : Type where
  | mk (type : String) (start_byte : Nat) (end_byte : Nat) (children : List Node)

def Node.type : Node → String
  | .mk t _ _ _ => t

def Node.start_byte : Node → Nat
  | .mk _ s _ _ => s

def Node.end_byte : Node → Nat
  | .mk _ _ e _ => e

def Node.children : Node → List Node
  | .mk _ _ _ c => c

/-- Shorthand node constructor used to transcribe concrete parse trees. -/
def nd (type : String) (start_byte end_byte : Nat) (children : List Node) : Node :=
  .mk type start_byte end_byte children

mutual
/-- Number of nodes in a tree.  Each node enters the BFS queues of
`build_call_graph` at most once, so this bounds (and, for the catalog pass,
exactly equals) the number of loop iterations; it serves as the fuel of the
loop embeddings below. -/
def Node.size : Node → Nat
  | .mk _ _ _ cs => 1 + sizeList cs

/-- Total number of nodes in a forest. -/
def sizeList : List Node → Nat
  | [] => 0
  | n :: ns => Node.size n + sizeList ns
end

mutual
/-- All nodes of a tree: the node itself and every node below it. -/
def Node.desc : Node → List Node
  | .mk t s e cs => .mk t s e cs :: descList cs

/-- All nodes of a forest. -/
def descList : List Node → List Node
  | [] => []
  | n :: ns => Node.desc n ++ descList ns
end

/-- `find_child_node_by_type` from the source: the first direct child with
the given type tag, if any. -/
def find_child_node_by_type (node : Node) (node_type : String) : Option Node :=
  node.children.find? (fun child => child.type == node_type)

/-- `get_node_text` from the source: `code[node.start_byte:node.end_byte]`,
Python slice semantics (empty when the range is empty or out of bounds). -/
def get_node_text (node : Node) (code : String) : String :=
  String.mk ((code.toList.drop node.start_byte).take (node.end_byte - node.start_byte))

/-- The call graph: an insertion-ordered association list modelling the
Python `dict[str, list[str]]` (the passes below never create a duplicate
key, mirroring dict semantics). -/
abbrev CallGraph := List (String × List String)

/-- Python `call_graph[function_name] = []`: overwrite the value at an
existing key in place, otherwise append the new key at the end. -/
def dictSetEmpty : CallGraph → String → CallGraph
  | [], k => [(k, [])]
  | (k', v) :: rest, k =>
    if k' == k then (k', []) :: rest else (k', v) :: dictSetEmpty rest k

/-- Python `call_graph[current_function_name].append(called_function_name)`:
append to the list stored at the key.  A missing key would raise `KeyError`
in Python; that case is unreachable in `build_call_graph` because the
catalog pass has already inserted every enclosing function's key, and is
modelled as a no-op. -/
def dictAppendAt : CallGraph → String → String → CallGraph
  | [], _, _ => []
  | (k', v) :: rest, k, x =>
    if k' == k then (k', v ++ [x]) :: rest else (k', v) :: dictAppendAt rest k x

/-- Python `call_graph[k]` read access, as an `Option`. -/
def dictFind : CallGraph → String → Option (List String)
  | [], _ => none
  | (k', v) :: rest, k => if k' == k then some v else dictFind rest k

/-- Python `defined_functions.add(name)` on the set of discovered names. -/
def setAdd (s : List String) (x : String) : List String :=
  if x ∈ s then s else s ++ [x]

/-- Pass 1 of `build_call_graph` (source lines 40–49): breadth-first walk of
the whole tree (`q.pop(0)` then `q.extend(current.children)`,
unconditionally); every `function_definition` node with an `identifier`
child registers that identifier's text in `defined_functions` and as a
call-graph key with an empty callee list.  The `while q` loop runs exactly
once per tree node, so fuel `sizeList q` makes the embedding exact. -/
def catalog_pass (code : String) :
    Nat → List Node → CallGraph → List String → CallGraph × List String
  | _, [], call_graph, defined_functions => (call_graph, defined_functions)
  | 0, _, call_graph, defined_functions => (call_graph, defined_functions)
  | fuel + 1, current :: q, call_graph, defined_functions =>
    if current.type == "function_definition" then
      match find_child_node_by_type current "identifier" with
      | some name_node =>
        let function_name := get_node_text name_node code
        catalog_pass code fuel (q ++ current.children)
          (dictSetEmpty call_graph function_name) (setAdd defined_functions function_name)
      | none =>
        catalog_pass code fuel (q ++ current.children) call_graph defined_functions
    else
      catalog_pass code fuel (q ++ current.children) call_graph defined_functions

/-- The inner `body_q` loop of pass 2 (source lines 61–71): breadth-first
walk of an enclosing function's subtree; a `call` node whose first
`identifier` child names a catalog member appends that name to the
enclosing function's callee list; children of a nested
`function_definition` are not expanded. -/
def body_walk (code : String) (defined_functions : List String)
    (current_function_name : String) :
    Nat → List Node → CallGraph → CallGraph
  | _, [], call_graph => call_graph
  | 0, _, call_graph => call_graph
  | fuel + 1, body_node :: body_q, call_graph =>
    let call_graph :=
      if body_node.type == "call" then
        match find_child_node_by_type body_node "identifier" with
        | some call_name_node =>
          let called_function_name := get_node_text call_name_node code
          if called_function_name ∈ defined_functions then
            dictAppendAt call_graph current_function_name called_function_name
          else call_graph
        | none => call_graph
      else call_graph
    if body_node.type != "function_definition" then
      body_walk code defined_functions current_function_name fuel
        (body_q ++ body_node.children) call_graph
    else
      body_walk code defined_functions current_function_name fuel body_q call_graph

/-- The outer loop of pass 2 (source lines 52–73): breadth-first walk that,
on reaching a `function_definition`, does not enqueue its children but
resolves its body with `body_walk` (skipping it when it has no `identifier`
child); every other node has its children enqueued. -/
def resolve_pass (code : String) (defined_functions : List String) :
    Nat → List Node → CallGraph → CallGraph
  | _, [], call_graph => call_graph
  | 0, _, call_graph => call_graph
  | fuel + 1, current :: q, call_graph =>
    if current.type == "function_definition" then
      match find_child_node_by_type current "identifier" with
      | none => resolve_pass code defined_functions fuel q call_graph
      | some current_func_name_node =>
        let current_function_name := get_node_text current_func_name_node code
        resolve_pass code defined_functions fuel q
          (body_walk code defined_functions current_function_name
            (sizeList current.children) current.children call_graph)
    else
      resolve_pass code defined_functions fuel (q ++ current.children) call_graph

/-- `build_call_graph` from the source: return `{}` unless the root is a
`module`, otherwise run the catalog pass and then the resolution pass. -/
def build_call_graph (node : Node) (code : String) : CallGraph :=
  if node.type != "module" then []
  else
    let p := catalog_pass code (Node.size node) [node] [] []
    resolve_pass code p.2 (Node.size node) [node] p.1

/-- The Function Catalog of §4.1: the set of function names the catalog
pass discovers anywhere in the tree. -/
def function_catalog (node : Node) (code : String) : List String :=
  (catalog_pass code (Node.size node) [node] [] []).2

/-- The keys of a call graph, in insertion order. -/
def graph_keys (cg : CallGraph) : List String :=
  cg.map Prod.fst

/-! ### The `/api/v1/parse` endpoint

The parser (`tree_sitter_languages.get_parser`) and the complexity tool
(`radon`) are external collaborators; they are modelled as explicit
function parameters of the endpoint. -/

/-- A loaded parser: maps source text to the parse tree's root node
together with the tree's `has_error` flag. -/
structure ParserCap where
  parse : String → Node × Bool

/-- The request body `CodePayload`. -/
structure CodePayload where
  language : String
  code : String

/-- The response body `AnalysisResponse`. -/
structure AnalysisResponse where
  call_graph : CallGraph
  complexity : List (String × Int)
deriving DecidableEq

/-- The `HTTPException`s raised by `parse_code_and_analyze`. -/
inductive ApiError where
  | unsupportedLanguage
  | parserLoadFailure
  | syntaxError
deriving DecidableEq

/-- The HTTP status code attached to each error. -/
def ApiError.status : ApiError → Nat
  | .unsupportedLanguage => 400
  | .parserLoadFailure => 500
  | .syntaxError => 400

/-- `calculate_cyclomatic_complexity` from the source: run the external
radon computation (`ComplexityVisitor.from_code` plus the comprehension
over `visitor.functions`, modelled as one fallible collaborator call) and
return an empty mapping if it raises any exception. -/
def calculate_cyclomatic_complexity (radon : String → Except String (List (String × Int)))
    (code : String) : List (String × Int) :=
  match radon code with
  | .ok scores => scores
  | .error _ => []

/-- `parse_code_and_analyze` from the source: reject a non-`"python"`
language with HTTP 400; load the parser (HTTP 500 on failure); parse; on a
tree with errors reject with HTTP 400; otherwise return the call graph and
the best-effort complexity mapping. -/
def parse_code_and_analyze (getParser : String → Except String ParserCap)
    (radon : String → Except String (List (String × Int)))
    (payload : CodePayload) : Except ApiError AnalysisResponse :=
  if payload.language != "python" then .error .unsupportedLanguage
  else
    match getParser payload.language with
    | .error _ => .error .parserLoadFailure
    | .ok parser =>
      let parsed := parser.parse payload.code
      if parsed.2 then .error .syntaxError
      else
        .ok ⟨build_call_graph parsed.1 payload.code,
             calculate_cyclomatic_complexity radon payload.code⟩

/-! ### Concrete parse trees

Transcriptions of the tree-sitter-python concrete syntax trees of the
spec's example sources, with the byte offsets the parser reports. -/

/-- Source `def f(): f()`. -/
def sSelf : String := "def f(): f()"

/-- The `function_definition` node of `def f(): f()`. -/
def fdSelf : Node :=
  nd "function_definition" 0 12 [
    nd "def" 0 3 [], nd "identifier" 4 5 [], nd "parameters" 5 7 [], nd ":" 7 8 [],
    nd "block" 9 12 [
      nd "expression_statement" 9 12 [
        nd "call" 9 12 [
          nd "identifier" 9 10 [],
          nd "argument_list" 10 12 [nd "(" 10 11 [], nd ")" 11 12 []]]]]]

/-- Parse tree of `def f(): f()`. -/
def tSelf : Node := nd "module" 0 12 [fdSelf]

/-- Source `def a(): b()\ndef b(): a()`. -/
def sAB : String := "def a(): b()\ndef b(): a()"

/-- The same two-definition source with the definition order reversed. -/
def sBA : String := "def b(): a()\ndef a(): b()"

/-- Parse tree shared by `sAB` and `sBA` (the two sources have identical
shapes and byte offsets; only the identifier texts differ). -/
def tPair : Node :=
  nd "module" 0 25 [
    nd "function_definition" 0 12 [
      nd "def" 0 3 [], nd "identifier" 4 5 [], nd "parameters" 5 7 [], nd ":" 7 8 [],
      nd "block" 9 12 [
        nd "expression_statement" 9 12 [
          nd "call" 9 12 [
            nd "identifier" 9 10 [],
            nd "argument_list" 10 12 [nd "(" 10 11 [], nd ")" 11 12 []]]]]],
    nd "function_definition" 13 25 [
      nd "def" 13 16 [], nd "identifier" 17 18 [], nd "parameters" 18 20 [], nd ":" 20 21 [],
      nd "block" 22 25 [
        nd "expression_statement" 22 25 [
          nd "call" 22 25 [
            nd "identifier" 22 23 [],
            nd "argument_list" 23 25 [nd "(" 23 24 [], nd ")" 24 25 []]]]]]]

/-- Source with a nested function whose body calls a top-level function. -/
def sNested : String := "def outer():\n    def inner():\n        helper()\ndef helper(): pass"

/-- Parse tree of `sNested`: `outer` contains the nested `inner`, whose
body calls `helper`; `helper` is defined at top level. -/
def tNested : Node :=
  nd "module" 0 65 [
    nd "function_definition" 0 46 [
      nd "def" 0 3 [], nd "identifier" 4 9 [], nd "parameters" 9 11 [], nd ":" 11 12 [],
      nd "block" 17 46 [
        nd "function_definition" 17 46 [
          nd "def" 17 20 [], nd "identifier" 21 26 [], nd "parameters" 26 28 [], nd ":" 28 29 [],
          nd "block" 38 46 [
            nd "expression_statement" 38 46 [
              nd "call" 38 46 [
                nd "identifier" 38 44 [],
                nd "argument_list" 44 46 [nd "(" 44 45 [], nd ")" 45 46 []]]]]]]],
    nd "function_definition" 47 65 [
      nd "def" 47 50 [], nd "identifier" 51 57 [], nd "parameters" 57 59 [], nd ":" 59 60 [],
      nd "block" 61 65 [nd "pass_statement" 61 65 []]]]

/-- Source `def f(): g(); g()\ndef g(): pass` with a duplicated call. -/
def sDup : String := "def f(): g(); g()\ndef g(): pass"

/-- Parse tree of `sDup`: `f`'s body holds two `call` nodes on `g`. -/
def tDup : Node :=
  nd "module" 0 31 [
    nd "function_definition" 0 17 [
      nd "def" 0 3 [], nd "identifier" 4 5 [], nd "parameters" 5 7 [], nd ":" 7 8 [],
      nd "block" 9 17 [
        nd "expression_statement" 9 17 [
          nd "call" 9 12 [
            nd "identifier" 9 10 [],
            nd "argument_list" 10 12 [nd "(" 10 11 [], nd ")" 11 12 []]],
          nd ";" 12 13 [],
          nd "call" 14 17 [
            nd "identifier" 14 15 [],
            nd "argument_list" 15 17 [nd "(" 15 16 [], nd ")" 16 17 []]]]]],
    nd "function_definition" 18 31 [
      nd "def" 18 21 [], nd "identifier" 22 23 [], nd "parameters" 23 25 [], nd ":" 25 26 [],
      nd "block" 27 31 [nd "pass_statement" 27 31 []]]]

/-- Source `def f(): print(1)`, a call to an undefined (builtin) name. -/
def sPrint : String := "def f(): print(1)"

/-- Parse tree of `sPrint`. -/
def tPrint : Node :=
  nd "module" 0 17 [
    nd "function_definition" 0 17 [
      nd "def" 0 3 [], nd "identifier" 4 5 [], nd "parameters" 5 7 [], nd ":" 7 8 [],
      nd "block" 9 17 [
        nd "expression_statement" 9 17 [
          nd "call" 9 17 [
            nd "identifier" 9 14 [],
            nd "argument_list" 14 17 [nd "(" 14 15 [], nd "integer" 15 16 [], nd ")" 16 17 []]]]]]]

/-- Source `def f(): pass`. -/
def sPass : String := "def f(): pass"

/-- The `function_definition` node of `def f(): pass`. -/
def fdPass : Node :=
  nd "function_definition" 0 13 [
    nd "def" 0 3 [], nd "identifier" 4 5 [], nd "parameters" 5 7 [], nd ":" 7 8 [],
    nd "block" 9 13 [nd "pass_statement" 9 13 []]]

/-- A tree whose root is not a `module` yet whose subtree defines `f`. -/
def tNonModule : Node := nd "block" 0 13 [fdPass]

/-- The invariant of §3: every key and every recorded callee of the call
graph is a member of the set of discovered function names. -/
def graph_ok (defined_functions : List String) (cg : CallGraph) : Prop :=
  ∀ p ∈ cg, p.1 ∈ defined_functions ∧ ∀ x ∈ p.2, x ∈ defined_functions

/-- Parser capability whose parse tree reports errors. -/
def brokenTreeCap : ParserCap := ⟨fun _ => (nd "module" 0 0 [], true)⟩

/-- Parser capability returning the (error-free) tree of `def f(): f()`. -/
def selfTreeCap : ParserCap := ⟨fun _ => (tSelf, false)⟩

/-! ### Supporting lemmas -/


theorem size_eq (n : Node) : n.size = 1 + sizeList n.children := by
  cases n; rfl

theorem desc_eq (n : Node) : n.desc = n :: descList n.children := by
  cases n; rfl

theorem size_pos (n : Node) : 0 < n.size := by
  rw [size_eq]; omega

theorem sizeList_append (a b : List Node) : sizeList (a ++ b) = sizeList a + sizeList b := by
  induction a with
  | nil => simp [sizeList]
  | cons n ns ih => simp [sizeList, ih]; omega

theorem descList_append (a b : List Node) : descList (a ++ b) = descList a ++ descList b := by
  induction a with
  | nil => simp [descList]
  | cons n ns ih => simp [descList, ih]


theorem setAdd_subset (s : List String) (x : String) : s ⊆ setAdd s x := by
  unfold setAdd; split
  · exact fun a h => h
  · exact List.subset_append_left _ _

theorem mem_setAdd_self (s : List String) (x : String) : x ∈ setAdd s x := by
  unfold setAdd; split
  · assumption
  · simp

theorem mem_dictSetEmpty {cg : CallGraph} {k : String} {p : String × List String}
    (hp : p ∈ dictSetEmpty cg k) : p = (k, []) ∨ p ∈ cg := by
  induction cg with
  | nil => simp [dictSetEmpty] at hp; simp [hp]
  | cons q rest ih =>
    obtain ⟨k', v⟩ := q
    simp only [dictSetEmpty] at hp
    split at hp
    · rename_i hk
      rcases List.mem_cons.mp hp with h | h
      · left; rw [h]; rw [beq_iff_eq] at hk; rw [hk]
      · right; exact List.mem_cons_of_mem _ h
    · rcases List.mem_cons.mp hp with h | h
      · right; rw [h]; exact List.mem_cons_self _ _
      · rcases ih h with h' | h'
        · left; exact h'
        · right; exact List.mem_cons_of_mem _ h'

theorem mem_dictAppendAt {cg : CallGraph} {k x : String} {p : String × List String}
    (hp : p ∈ dictAppendAt cg k x) :
    p ∈ cg ∨ ∃ v, (k, v) ∈ cg ∧ p = (k, v ++ [x]) := by
  induction cg with
  | nil => simp [dictAppendAt] at hp
  | cons q rest ih =>
    obtain ⟨k', v⟩ := q
    simp only [dictAppendAt] at hp
    split at hp
    · rename_i hk
      rw [beq_iff_eq] at hk
      rcases List.mem_cons.mp hp with h | h
      · right; exact ⟨v, by simp [hk], by rw [h, hk]⟩
      · left; exact List.mem_cons_of_mem _ h
    · rcases List.mem_cons.mp hp with h | h
      · left; rw [h]; exact List.mem_cons_self _ _
      · rcases ih h with h' | ⟨v', hv', hp'⟩
        · left; exact List.mem_cons_of_mem _ h'
        · right; exact ⟨v', List.mem_cons_of_mem _ hv', hp'⟩

theorem graph_ok_mono {dfs dfs' : List String} {cg : CallGraph}
    (hsub : dfs ⊆ dfs') (h : graph_ok dfs cg) : graph_ok dfs' cg := by
  intro p hp
  exact ⟨hsub (h p hp).1, fun x hx => hsub ((h p hp).2 x hx)⟩

theorem graph_ok_dictSetEmpty {dfs : List String} {cg : CallGraph} {k : String}
    (h : graph_ok dfs cg) (hk : k ∈ dfs) : graph_ok dfs (dictSetEmpty cg k) := by
  intro p hp
  rcases mem_dictSetEmpty hp with h' | h'
  · rw [h']; exact ⟨hk, by simp⟩
  · exact h p h'

theorem graph_ok_dictAppendAt {dfs : List String} {cg : CallGraph} {k x : String}
    (h : graph_ok dfs cg) (hx : x ∈ dfs) : graph_ok dfs (dictAppendAt cg k x) := by
  intro p hp
  rcases mem_dictAppendAt hp with h' | ⟨v, hv, hp'⟩
  · exact h p h'
  · rw [hp']
    refine ⟨(h _ hv).1, fun y hy => ?_⟩
    rcases List.mem_append.mp hy with hy | hy
    · exact (h _ hv).2 y hy
    · rw [List.mem_singleton.mp hy]; exact hx

theorem catalog_pass_dfs_subset (code : String) :
    ∀ (fuel : Nat) (q : List Node) (cg : CallGraph) (dfs : List String),
    dfs ⊆ (catalog_pass code fuel q cg dfs).2 := by
  intro fuel
  induction fuel with
  | zero =>
    intro q cg dfs
    cases q <;> simp [catalog_pass]
  | succ fuel ih =>
    intro q cg dfs
    cases q with
    | nil => simp [catalog_pass]
    | cons current rest =>
      simp only [catalog_pass]
      split
      · split
        · exact List.Subset.trans (setAdd_subset _ _) (ih _ _ _)
        · exact ih _ _ _
      · exact ih _ _ _

theorem catalog_pass_ok (code : String) :
    ∀ (fuel : Nat) (q : List Node) (cg : CallGraph) (dfs : List String),
    graph_ok dfs cg →
    graph_ok (catalog_pass code fuel q cg dfs).2 (catalog_pass code fuel q cg dfs).1 := by
  intro fuel
  induction fuel with
  | zero =>
    intro q cg dfs h
    cases q <;> simpa [catalog_pass] using h
  | succ fuel ih =>
    intro q cg dfs h
    cases q with
    | nil => simpa [catalog_pass] using h
    | cons current rest =>
      simp only [catalog_pass]
      split
      · split
        · refine ih _ _ _ ?_
          refine graph_ok_dictSetEmpty (graph_ok_mono (setAdd_subset _ _) h) ?_
          exact mem_setAdd_self _ _
        · exact ih _ _ _ h
      · exact ih _ _ _ h

theorem body_walk_ok (code : String) (dfs : List String) (fname : String) :
    ∀ (fuel : Nat) (bq : List Node) (cg : CallGraph),
    graph_ok dfs cg → graph_ok dfs (body_walk code dfs fname fuel bq cg) := by
  intro fuel
  induction fuel with
  | zero =>
    intro bq cg h
    cases bq <;> simpa [body_walk] using h
  | succ fuel ih =>
    intro bq cg h
    cases bq with
    | nil => simpa [body_walk] using h
    | cons body_node body_q =>
      simp only [body_walk]
      have hstep : graph_ok dfs
          (if body_node.type == "call" then
            match find_child_node_by_type body_node "identifier" with
            | some call_name_node =>
              if get_node_text call_name_node code ∈ dfs then
                dictAppendAt cg fname (get_node_text call_name_node code)
              else cg
            | none => cg
          else cg) := by
        split
        · split
          · split
            · rename_i hmem; exact graph_ok_dictAppendAt h hmem
            · exact h
          · exact h
        · exact h
      split
      · exact ih _ _ hstep
      · exact ih _ _ hstep

theorem resolve_pass_ok (code : String) (dfs : List String) :
    ∀ (fuel : Nat) (q : List Node) (cg : CallGraph),
    graph_ok dfs cg → graph_ok dfs (resolve_pass code dfs fuel q cg) := by
  intro fuel
  induction fuel with
  | zero =>
    intro q cg h
    cases q <;> simpa [resolve_pass] using h
  | succ fuel ih =>
    intro q cg h
    cases q with
    | nil => simpa [resolve_pass] using h
    | cons current rest =>
      simp only [resolve_pass]
      split
      · split
        · exact ih _ _ h
        · exact ih _ _ (body_walk_ok _ _ _ _ _ _ h)
      · exact ih _ _ h


theorem graph_keys_dictAppendAt (cg : CallGraph) (k x : String) :
    graph_keys (dictAppendAt cg k x) = graph_keys cg := by
  induction cg with
  | nil => rfl
  | cons q rest ih =>
    obtain ⟨k', v⟩ := q
    simp only [dictAppendAt]
    split
    · rfl
    · simp [graph_keys] at ih ⊢; exact ih

theorem graph_keys_dictSetEmpty_subset (cg : CallGraph) (k : String) :
    graph_keys cg ⊆ graph_keys (dictSetEmpty cg k) := by
  induction cg with
  | nil => simp [dictSetEmpty, graph_keys]
  | cons q rest ih =>
    obtain ⟨k', v⟩ := q
    simp only [dictSetEmpty]
    split
    · simp [graph_keys]
    · intro a ha
      rcases List.mem_cons.mp ha with h | h
      · rw [h]; exact List.mem_cons_self _ _
      · exact List.mem_cons_of_mem _ (ih h)

theorem mem_graph_keys_dictSetEmpty (cg : CallGraph) (k : String) :
    k ∈ graph_keys (dictSetEmpty cg k) := by
  induction cg with
  | nil => simp [dictSetEmpty, graph_keys]
  | cons q rest ih =>
    obtain ⟨k', v⟩ := q
    simp only [dictSetEmpty]
    split
    · rename_i hk; rw [beq_iff_eq] at hk; rw [← hk]; simp [graph_keys]
    · exact List.mem_cons_of_mem _ ih

theorem graph_keys_catalog_pass (code : String) :
    ∀ (fuel : Nat) (q : List Node) (cg : CallGraph) (dfs : List String),
    graph_keys cg ⊆ graph_keys (catalog_pass code fuel q cg dfs).1 := by
  intro fuel
  induction fuel with
  | zero =>
    intro q cg dfs
    cases q <;> simp [catalog_pass]
  | succ fuel ih =>
    intro q cg dfs
    cases q with
    | nil => simp [catalog_pass]
    | cons current rest =>
      simp only [catalog_pass]
      split
      · split
        · exact List.Subset.trans (graph_keys_dictSetEmpty_subset _ _) (ih _ _ _)
        · exact ih _ _ _
      · exact ih _ _ _

theorem catalog_pass_complete (code : String) :
    ∀ (fuel : Nat) (q : List Node) (cg : CallGraph) (dfs : List String)
      (fd name_node : Node),
    sizeList q ≤ fuel →
    fd ∈ descList q →
    fd.type = "function_definition" →
    find_child_node_by_type fd "identifier" = some name_node →
    get_node_text name_node code ∈ graph_keys (catalog_pass code fuel q cg dfs).1 := by
  intro fuel
  induction fuel with
  | zero =>
    intro q cg dfs fd nn hfuel hmem htype hfind
    cases q with
    | nil => simp [descList] at hmem
    | cons c rest =>
      exfalso
      have := size_pos c
      simp [sizeList] at hfuel
      omega
  | succ fuel ih =>
    intro q cg dfs fd nn hfuel hmem htype hfind
    cases q with
    | nil => simp [descList] at hmem
    | cons current rest =>
      have hsz : sizeList (rest ++ current.children) ≤ fuel := by
        rw [sizeList_append]
        rw [sizeList, size_eq current] at hfuel
        omega
      rw [descList, desc_eq] at hmem
      rcases (by simpa using hmem :
          fd = current ∨ fd ∈ descList current.children ∨ fd ∈ descList rest) with
        hfd | hrest
      · -- fd is the node popped at this step
        subst hfd
        simp only [catalog_pass, htype]
        simp only [beq_self_eq_true, if_true, hfind]
        exact graph_keys_catalog_pass code fuel _ _ _ (mem_graph_keys_dictSetEmpty _ _)
      · -- fd lies below the popped node or in the rest of the queue
        have hmem' : fd ∈ descList (rest ++ current.children) := by
          rw [descList_append]
          rcases hrest with h | h
          · exact List.mem_append.mpr (Or.inr h)
          · exact List.mem_append.mpr (Or.inl h)
        simp only [catalog_pass]
        split
        · split
          · exact ih _ _ _ fd nn hsz hmem' htype hfind
          · exact ih _ _ _ fd nn hsz hmem' htype hfind
        · exact ih _ _ _ fd nn hsz hmem' htype hfind

theorem graph_keys_body_walk (code : String) (dfs : List String) (fname : String) :
    ∀ (fuel : Nat) (bq : List Node) (cg : CallGraph),
    graph_keys (body_walk code dfs fname fuel bq cg) = graph_keys cg := by
  intro fuel
  induction fuel with
  | zero =>
    intro bq cg
    cases bq <;> simp [body_walk]
  | succ fuel ih =>
    intro bq cg
    cases bq with
    | nil => simp [body_walk]
    | cons body_node body_q =>
      simp only [body_walk]
      have hstep : ∀ cg' : CallGraph,
          graph_keys (if body_node.type == "call" then
            match find_child_node_by_type body_node "identifier" with
            | some call_name_node =>
              if get_node_text call_name_node code ∈ dfs then
                dictAppendAt cg' fname (get_node_text call_name_node code)
              else cg'
            | none => cg'
          else cg') = graph_keys cg' := by
        intro cg'
        split
        · split
          · split
            · exact graph_keys_dictAppendAt _ _ _
            · rfl
          · rfl
        · rfl
      split
      · rw [ih, hstep]
      · rw [ih, hstep]

theorem graph_keys_resolve_pass (code : String) (dfs : List String) :
    ∀ (fuel : Nat) (q : List Node) (cg : CallGraph),
    graph_keys (resolve_pass code dfs fuel q cg) = graph_keys cg := by
  intro fuel
  induction fuel with
  | zero =>
    intro q cg
    cases q <;> simp [resolve_pass]
  | succ fuel ih =>
    intro q cg
    cases q with
    | nil => simp [resolve_pass]
    | cons current rest =>
      simp only [resolve_pass]
      split
      · split
        · exact ih _ _
        · rw [ih, graph_keys_body_walk]
      · exact ih _ _


/-! ### The specified properties -/

/-- C1: Nested-function opacity.  For the module-rooted tree of
`def outer():  def inner():  helper()` with top-level `def helper(): pass`,
the catalog contains `outer`, `inner` and `helper`, yet every callee list
of the call graph is empty — in particular `call_graph[outer] == []` and
`call_graph[inner] == []`, so the call to `helper` inside the nested
`inner` is attributed to no entry at all. -/
theorem nested_function_opacity :
    function_catalog tNested sNested = ["outer", "helper", "inner"] ∧
    build_call_graph tNested sNested = [("outer", []), ("helper", []), ("inner", [])] ∧
    dictFind (build_call_graph tNested sNested) "outer" = some [] ∧
    dictFind (build_call_graph tNested sNested) "inner" = some [] := by
  decide

/-- C2: Catalog superset invariant.  For every tree and source text, every
key of the call graph returned by `build_call_graph`, and every callee name
in any of its value sequences, is a member of the function catalog computed
from the same tree; moreover calls to non-catalog names are never recorded:
`def f(): print(1)` yields `{f: []}`. -/
theorem catalog_superset_invariant :
    (∀ (node : Node) (code : String), ∀ p ∈ build_call_graph node code,
      p.1 ∈ function_catalog node code ∧
        ∀ x ∈ p.2, x ∈ function_catalog node code) ∧
    build_call_graph tPrint sPrint = [("f", [])] := by
  constructor
  · intro node code p hp
    simp only [build_call_graph] at hp
    split at hp
    · simp at hp
    · exact resolve_pass_ok code _ _ _ _
        (catalog_pass_ok code _ _ _ _ (fun p hp => absurd hp (List.not_mem_nil p))) p hp
  · decide

/-- Witness for C2 at the concrete tree of `def f(): print(1)`. -/
theorem catalog_superset_invariant_witness :
    (("f", ([] : List String)) ∈ build_call_graph tPrint sPrint) ∧
    "f" ∈ function_catalog tPrint sPrint :=
  ⟨by decide, (catalog_superset_invariant.1 tPrint sPrint ("f", []) (by decide)).1⟩

/-- C3: Order-independent resolution via two passes.  Forward and mutual
recursion resolve in either definition order — both orderings of
`def a(): b()` / `def b(): a()` give `{a: [b], b: [a]}` — and
`def f(): f()` gives `{f: [f]}`. -/
theorem two_pass_order_independent_resolution :
    build_call_graph tPair sAB = [("a", ["b"]), ("b", ["a"])] ∧
    build_call_graph tPair sBA = [("b", ["a"]), ("a", ["b"])] ∧
    dictFind (build_call_graph tPair sAB) "a" = some ["b"] ∧
    dictFind (build_call_graph tPair sAB) "b" = some ["a"] ∧
    dictFind (build_call_graph tPair sBA) "a" = some ["b"] ∧
    dictFind (build_call_graph tPair sBA) "b" = some ["a"] ∧
    build_call_graph tSelf sSelf = [("f", ["f"])] := by
  decide

/-- Counterexample for C4 as stated: a tree whose root is a `block`
rather than a `module` contains a `function_definition` node with
identifier `f`, yet `build_call_graph` returns the empty mapping, so `f`
is not a key of the returned call graph. -/
theorem catalog_completeness_counterexample :
    fdPass ∈ tNonModule.desc ∧
    fdPass.type = "function_definition" ∧
    find_child_node_by_type fdPass "identifier" = some (nd "identifier" 4 5 []) ∧
    get_node_text (nd "identifier" 4 5 []) sPass = "f" ∧
    build_call_graph tNonModule sPass = [] ∧
    "f" ∉ graph_keys (build_call_graph tNonModule sPass) :=
  ⟨.tail _ (.head _), rfl, rfl, by decide, rfl, by decide⟩

/-- C4 (amended): Catalog completeness at every nesting depth, for
module-rooted trees.  For every tree whose root has type `module`, every
`function_definition` node at any nesting depth that has an `identifier`
child contributes that identifier's text as a key of the call graph
returned by `build_call_graph`. -/
theorem catalog_completeness_module (node : Node) (code : String) (fd name_node : Node)
    (hmod : node.type = "module")
    (hmem : fd ∈ node.desc)
    (htype : fd.type = "function_definition")
    (hfind : find_child_node_by_type fd "identifier" = some name_node) :
    get_node_text name_node code ∈ graph_keys (build_call_graph node code) := by
  simp only [build_call_graph, hmod]
  simp only [bne_self_eq_false, Bool.false_eq_true, if_false]
  rw [graph_keys_resolve_pass]
  refine catalog_pass_complete code _ _ _ _ fd name_node ?_ ?_ htype hfind
  · simp [sizeList]
  · simpa [descList] using hmem

/-- Witness for C4 (amended) at the concrete tree of `def f(): f()`. -/
theorem catalog_completeness_module_witness :
    tSelf.type = "module" ∧ fdSelf ∈ tSelf.desc ∧
    fdSelf.type = "function_definition" ∧
    find_child_node_by_type fdSelf "identifier" = some (nd "identifier" 4 5 []) ∧
    "f" ∈ graph_keys (build_call_graph tSelf sSelf) :=
  ⟨rfl, .tail _ (.head _), rfl, rfl,
    catalog_completeness_module tSelf sSelf fdSelf (nd "identifier" 4 5 [])
      rfl (.tail _ (.head _)) rfl rfl⟩

/-- C5: Duplicate calls are preserved in traversal order.
`def f(): g(); g()` with `def g(): pass` yields `call_graph[f] == [g, g]`. -/
theorem duplicate_calls_preserved :
    build_call_graph tDup sDup = [("f", ["g", "g"]), ("g", [])] ∧
    dictFind (build_call_graph tDup sDup) "f" = some ["g", "g"] := by
  decide

/-- C6: Syntax-error atomicity.  When the language is supported, the
parser loads, and the parsed tree reports errors (`has_error`), the
endpoint answers the `SyntaxError` failure with HTTP status 400 — an error
value carrying no call graph — for every complexity collaborator, so no
partial analysis result is produced. -/
theorem syntax_error_atomicity (getParser : String → Except String ParserCap)
    (radon : String → Except String (List (String × Int)))
    (payload : CodePayload) (parser : ParserCap)
    (hl : payload.language = "python")
    (hp : getParser "python" = .ok parser)
    (he : (parser.parse payload.code).2 = true) :
    parse_code_and_analyze getParser radon payload = .error .syntaxError ∧
    ApiError.syntaxError.status = 400 := by
  refine ⟨?_, rfl⟩
  unfold parse_code_and_analyze
  rw [hl]
  simp [hp, he]

/-- Witness for C6 with a concrete parser capability whose tree reports
errors. -/
theorem syntax_error_atomicity_witness :
    parse_code_and_analyze (fun _ => .ok brokenTreeCap) (fun _ => .ok [])
        ⟨"python", "def f(:"⟩ = .error .syntaxError ∧
    ApiError.syntaxError.status = 400 :=
  syntax_error_atomicity (fun _ => .ok brokenTreeCap) (fun _ => .ok [])
    ⟨"python", "def f(:"⟩ brokenTreeCap rfl rfl rfl

/-- C7: Unsupported-language rejection precedes parsing.  For every
request whose language tag is not `python`, and for every parser and
complexity collaborator (neither is consulted — the result is independent
of both), the endpoint answers the `UnsupportedLanguage` failure with HTTP
status 400. -/
theorem unsupported_language_rejection (getParser : String → Except String ParserCap)
    (radon : String → Except String (List (String × Int)))
    (payload : CodePayload)
    (h : payload.language ≠ "python") :
    parse_code_and_analyze getParser radon payload = .error .unsupportedLanguage ∧
    ApiError.unsupportedLanguage.status = 400 := by
  unfold parse_code_and_analyze
  rw [if_pos (by simpa [bne_iff_ne] using h)]
  exact ⟨rfl, rfl⟩

/-- Witness for C7 at the concrete language tag `javascript`. -/
theorem unsupported_language_rejection_witness :
    parse_code_and_analyze (fun _ => .ok selfTreeCap) (fun _ => .ok [])
        ⟨"javascript", "x = 1"⟩ = .error .unsupportedLanguage ∧
    ApiError.unsupportedLanguage.status = 400 :=
  unsupported_language_rejection _ _ _ (by decide)

/-- C8: Complexity failure is absorbed.  If the external complexity
computation raises any exception, the wrapper substitutes an empty mapping
and the endpoint still returns a successful result containing the call
graph. -/
theorem complexity_failure_absorbed (getParser : String → Except String ParserCap)
    (radon : String → Except String (List (String × Int)))
    (payload : CodePayload) (parser : ParserCap) (root : Node) (e : String)
    (hl : payload.language = "python")
    (hp : getParser "python" = .ok parser)
    (hparse : parser.parse payload.code = (root, false))
    (hc : radon payload.code = .error e) :
    parse_code_and_analyze getParser radon payload =
      .ok ⟨build_call_graph root payload.code, []⟩ ∧
    calculate_cyclomatic_complexity radon payload.code = [] := by
  have hcc : calculate_cyclomatic_complexity radon payload.code = [] := by
    simp [calculate_cyclomatic_complexity, hc]
  refine ⟨?_, hcc⟩
  unfold parse_code_and_analyze
  rw [hl]
  simp [hp, hparse, hcc]

/-- Witness for C8: a failing complexity collaborator on `def f(): f()`
still yields the call graph with an empty complexity mapping. -/
theorem complexity_failure_absorbed_witness :
    parse_code_and_analyze (fun _ => .ok selfTreeCap) (fun _ => .error "radon failed")
        ⟨"python", sSelf⟩ = .ok ⟨[("f", ["f"])], []⟩ :=
  (complexity_failure_absorbed (fun _ => .ok selfTreeCap) (fun _ => .error "radon failed")
    ⟨"python", sSelf⟩ selfTreeCap tSelf "radon failed" rfl rfl rfl rfl).1

/-- C9: Determinism.  `build_call_graph` and the endpoint are pure
functions of their inputs (the source keeps no module-level mutable state,
which the embedding reflects): two runs on the same arguments return
identical results. -/
theorem analysis_deterministic :
    (∀ (node : Node) (code : String),
      build_call_graph node code = build_call_graph node code) ∧
    (∀ (getParser : String → Except String ParserCap)
       (radon : String → Except String (List (String × Int)))
       (payload : CodePayload),
      parse_code_and_analyze getParser radon payload =
        parse_code_and_analyze getParser radon payload) :=
  ⟨fun _ _ => rfl, fun _ _ _ => rfl⟩

/-- C10: Non-module root guard.  For every root node whose type tag is
not `module`, `build_call_graph` returns the empty mapping. -/
theorem non_module_root_guard (node : Node) (code : String)
    (h : node.type ≠ "module") :
    build_call_graph node code = [] := by
  unfold build_call_graph
  rw [if_pos (by simpa [bne_iff_ne] using h)]

/-- Witness for C10 at a concrete `block`-rooted tree. -/
theorem non_module_root_guard_witness :
    tNonModule.type ≠ "module" ∧ build_call_graph tNonModule sPass = [] :=
  ⟨by decide, non_module_root_guard tNonModule sPass (by decide)⟩

end RepoAnalysis
